import Mathlib

/-!
Verification of the polars CSV writer (`polars-io/src/csv/write.rs`).

The façade (`CsvWriter`, its constructor, its fluent configuration
methods and `finish`) is embedded directly from `write.rs`.  The engine it
drives (`write_impl`: the options record's defaults, the header writer, the
value formatter, the escaper and the row-batch writer) is not part of the
sources, so those definitions are modelled from the specification; each such
definition carries a doc comment saying so.

Bytes are modelled as natural numbers (values below 256); an output stream
is a list of written bytes together with an optional failure budget
(`failAfter = some k` makes the `k`-th next flush fail); fallible
operations return `Except` or pair their result with an optional error.
All recursion is structural so the kernel can evaluate every definition on
concrete inputs.
-/

namespace PolarsCsv

/-- Errors surfaced by the writer: an output-stream write failure or a
formatting failure (invalid format pattern for a temporal cell). -/
inductive WriteError where
  | outputFailure
  | formattingFailure
deriving Repr, DecidableEq

/-- The options record `CsvWriterOptions` (declared in `write_impl` and
re-exported by `write.rs`).  Field names and types follow the doc comment
of `CsvWriter` in `write.rs`; the delimiter and quote are single bytes. -/
structure CsvWriterOptions where
  header : Bool
  delimiter : Nat
  quote : Nat
  null : String
  batch_size : Nat
  date_format : Option String
  time_format : Option String
  datetime_format : Option String
  float_precision : Option Nat
deriving Repr, DecidableEq

/-- Modelled from the spec: the `Default` instance of `CsvWriterOptions`
lives in `write_impl`, which is not among the sources.  Its values are the
defaults listed in §3 of the spec and in the doc comment of `CsvWriter`
in `write.rs`: header true, delimiter the comma byte, quote the
double-quote byte, empty null sentinel, batch size 1024, and no format
overrides. -/
def defaultOptions : CsvWriterOptions where
  header := true
  delimiter := 44
  quote := 34
  null := ""
  batch_size := 1024
  date_format := none
  time_format := none
  datetime_format := none
  float_precision := none

/-- The writer façade `CsvWriter<W>` from `write.rs`: an output handle and
the options bundle. -/
structure CsvWriter (W : Type) where
  buffer : W
  options : CsvWriterOptions
deriving Repr, DecidableEq

variable {W : Type}

/-- Constructor `CsvWriter::new`: default options, except that
`time_format` is set to the nanosecond-precision pattern. -/
def CsvWriter.new (buffer : W) : CsvWriter W :=
  { buffer := buffer
    options := { defaultOptions with time_format := some "%T%.9f" } }

/-- Method `with_options`: replace the whole options bundle. -/
def CsvWriter.with_options (w : CsvWriter W) (options : CsvWriterOptions) :
    CsvWriter W :=
  { w with options := options }

/-- Method `has_header`. -/
def CsvWriter.has_header (w : CsvWriter W) (hh : Bool) : CsvWriter W :=
  { w with options := { w.options with header := hh } }

/-- Method `with_delimiter`. -/
def CsvWriter.with_delimiter (w : CsvWriter W) (delimiter : Nat) :
    CsvWriter W :=
  { w with options := { w.options with delimiter := delimiter } }

/-- Method `with_batch_size`. -/
def CsvWriter.with_batch_size (w : CsvWriter W) (bs : Nat) : CsvWriter W :=
  { w with options := { w.options with batch_size := bs } }

/-- Method `with_date_format`: applied only when the argument is present. -/
def CsvWriter.with_date_format (w : CsvWriter W) (format : Option String) :
    CsvWriter W :=
  if format.isSome then
    { w with options := { w.options with date_format := format } }
  else w

/-- Method `with_time_format`: applied only when the argument is present. -/
def CsvWriter.with_time_format (w : CsvWriter W) (format : Option String) :
    CsvWriter W :=
  if format.isSome then
    { w with options := { w.options with time_format := format } }
  else w

/-- Method `with_datetime_format`: applied only when the argument is
present. -/
def CsvWriter.with_datetime_format (w : CsvWriter W) (format : Option String) :
    CsvWriter W :=
  if format.isSome then
    { w with options := { w.options with datetime_format := format } }
  else w

/-- Method `with_float_precision`: applied only when the argument is
present. -/
def CsvWriter.with_float_precision (w : CsvWriter W) (precision : Option Nat) :
    CsvWriter W :=
  if precision.isSome then
    { w with options := { w.options with float_precision := precision } }
  else w

/-- Method `with_quoting_char`. -/
def CsvWriter.with_quoting_char (w : CsvWriter W) (c : Nat) : CsvWriter W :=
  { w with options := { w.options with quote := c } }

/-- Method `with_null_value`. -/
def CsvWriter.with_null_value (w : CsvWriter W) (nv : String) : CsvWriter W :=
  { w with options := { w.options with null := nv } }

/-- Modelled from the spec: the escaper of `write_impl` is not among the
sources.  Doubling of the quote byte inside a field that is to be
quoted. -/
def escapeQuotes (q : Nat) : List Nat → List Nat
  | [] => []
  | b :: bs => (if b = q then [q, q] else [b]) ++ escapeQuotes q bs

/-- Modelled from the spec: a field must be quoted when it contains the
delimiter, the quote byte, or a line-break byte (10 or 13), or when it is
empty and emptiness must be distinguished from the null sentinel (the
caller passes `emptyQuote = true` exactly for a non-null text field while
the null sentinel is the empty string). -/
def needs_quote (field : List Nat) (d q : Nat) (emptyQuote : Bool) : Bool :=
  field.any (fun b => b == d || b == q || b == 10 || b == 13)
    || (field.isEmpty && emptyQuote)

/-- Modelled from the spec: escape one formatted field — wrap it in quote
bytes with inner quotes doubled when quoting is needed, otherwise emit it
as-is. -/
def escape_field (field : List Nat) (d q : Nat) (emptyQuote : Bool) :
    List Nat :=
  if needs_quote field d q emptyQuote then
    q :: (escapeQuotes q field ++ [q])
  else field

/-- Fuel-driven decimal rendering of a natural number, most significant
digit first.  The fuel argument makes the recursion structural, so the
kernel can evaluate it. -/
def natDigitsAux : Nat → Nat → List Char
  | 0, _ => []
  | fuel + 1, n =>
    if n < 10 then [Nat.digitChar n]
    else natDigitsAux fuel (n / 10) ++ [Nat.digitChar (n % 10)]

/-- Decimal digits of a natural number, most significant first. -/
def natDigits (n : Nat) : List Char := natDigitsAux (n + 1) n

/-- Left-pad a character list with zeros up to width `w`. -/
def padLeftZeros (w : Nat) (cs : List Char) : List Char :=
  List.replicate (w - cs.length) '0' ++ cs

/-- Zero-padded decimal rendering of width `w` (used by the temporal
pattern directives). -/
def padDigits (w n : Nat) : List Char := padLeftZeros w (natDigits n)

/-- Canonical decimal rendering of an integer. -/
def intChars (i : Int) : List Char :=
  if i < 0 then '-' :: natDigits i.natAbs else natDigits i.natAbs

/-- Modelled from the spec: fixed-notation rendering of a float (modelled
as a rational number) with exactly `p` digits after the decimal point and
no exponent; the absolute value is rounded half-up at the `p`-th digit.
With `p = 0` no decimal point is emitted. -/
def formatFloatChars (p : Nat) (x : ℚ) : List Char :=
  let a : Nat := x.num.natAbs
  let b : Nat := x.den
  let n : Nat := (2 * a * 10 ^ p + b) / (2 * b)
  (if x.num < 0 then ['-'] else [])
    ++ natDigits (n / 10 ^ p)
    ++ (if p = 0 then [] else
        '.' :: padLeftZeros p (natDigits (n % 10 ^ p)))

/-- Modelled from the spec: float rendering of `write_impl`.  When
`float_precision` is set, fixed notation with exactly that many
fractional digits; the sources for the unset branch (shortest
round-trippable form) are not available and no claim depends on it, so it
is rendered here at seventeen fixed fractional digits. -/
def formatFloat (prec : Option Nat) (x : ℚ) : String :=
  ⟨formatFloatChars (prec.getD 17) x⟩

/-- Modelled from the spec: the strftime-style pattern renderer used for
dates, times and datetimes, restricted to the directives the defaults
need; a directive outside the supported set is a formatting failure, as
the spec prescribes for a malformed pattern (§7). -/
def renderChars (y mo d h mi s ns : Nat) :
    List Char → Except WriteError (List Char)
  | [] => .ok []
  | '%' :: 'Y' :: t =>
    (renderChars y mo d h mi s ns t).map fun r => padDigits 4 y ++ r
  | '%' :: 'm' :: t =>
    (renderChars y mo d h mi s ns t).map fun r => padDigits 2 mo ++ r
  | '%' :: 'd' :: t =>
    (renderChars y mo d h mi s ns t).map fun r => padDigits 2 d ++ r
  | '%' :: 'H' :: t =>
    (renderChars y mo d h mi s ns t).map fun r => padDigits 2 h ++ r
  | '%' :: 'M' :: t =>
    (renderChars y mo d h mi s ns t).map fun r => padDigits 2 mi ++ r
  | '%' :: 'S' :: t =>
    (renderChars y mo d h mi s ns t).map fun r => padDigits 2 s ++ r
  | '%' :: 'T' :: t =>
    (renderChars y mo d h mi s ns t).map fun r =>
      padDigits 2 h ++ ':' :: padDigits 2 mi ++ ':' :: padDigits 2 s ++ r
  | '%' :: '.' :: '9' :: 'f' :: t =>
    (renderChars y mo d h mi s ns t).map fun r => '.' :: padDigits 9 ns ++ r
  | '%' :: '%' :: t =>
    (renderChars y mo d h mi s ns t).map fun r => '%' :: r
  | '%' :: _ => .error .formattingFailure
  | c :: t => (renderChars y mo d h mi s ns t).map fun r => c :: r

/-- One table cell: the closed set of logical value types of the spec
(§3), with temporal values carried as calendar and clock fields and
floats modelled as rationals. -/
inductive Cell where
  | null
  | int (i : Int)
  | boolean (b : Bool)
  | text (s : String)
  | float (x : ℚ)
  | date (y mo d : Nat)
  | time (h mi s ns : Nat)
  | datetime (y mo d h mi s ns : Nat)
deriving Repr, DecidableEq

/-- Modelled from the spec: the value formatter of `write_impl` (§4.2) —
null cells render as the configured sentinel, integers and booleans in
canonical form, text verbatim, floats per `float_precision`, temporal
cells through the configured or default pattern. -/
def formatCell (o : CsvWriterOptions) : Cell → Except WriteError String
  | .null => .ok o.null
  | .int i => .ok ⟨intChars i⟩
  | .boolean b => .ok (if b then "true" else "false")
  | .text s => .ok s
  | .float x => .ok (formatFloat o.float_precision x)
  | .date y mo d =>
    (renderChars y mo d 0 0 0 0 (o.date_format.getD "%Y-%m-%d").data).map
      fun cs => ⟨cs⟩
  | .time h mi s ns =>
    (renderChars 0 0 0 h mi s ns (o.time_format.getD "%T%.9f").data).map
      fun cs => ⟨cs⟩
  | .datetime y mo d h mi s ns =>
    (renderChars y mo d h mi s ns
        (o.datetime_format.getD "%Y-%m-%dT%T%.9f").data).map
      fun cs => ⟨cs⟩

/-- The characters after the first decimal point, if any. -/
def afterDot : List Char → Option (List Char)
  | [] => none
  | c :: t => if c = '.' then some t else afterDot t

/-- Byte view of a text value: each character as its code point (faithful
for the ASCII fields the claims exercise). -/
def strBytes (s : String) : List Nat := s.data.map Char.toNat

/-- The table consumed read-only by the writer: ordered named columns of
cells (spec §3). -/
structure DataFrame where
  cols : List (String × List Cell)
deriving Repr, DecidableEq

/-- Ordered column names, as `DataFrame::get_column_names`. -/
def DataFrame.get_column_names (df : DataFrame) : List String :=
  df.cols.map Prod.fst

/-- Row count (all columns share it, per the table invariant of §3). -/
def DataFrame.height (df : DataFrame) : Nat :=
  match df.cols with
  | [] => 0
  | c :: _ => c.2.length

/-- The table body as a list of rows, each row listing the cells of the
columns in table order (the cell accessor of spec §6). -/
def DataFrame.rows (df : DataFrame) : List (List Cell) :=
  (List.range df.height).map fun i => df.cols.map fun c => c.2.getD i .null

/-- Modelled from the spec: whether the emptiness of this cell's
formatted field must be distinguished from the null sentinel — true
exactly for a non-null text cell while the sentinel is the empty string
(§4.3). -/
def distinguishEmpty (o : CsvWriterOptions) : Cell → Bool
  | .text _ => o.null == ""
  | _ => false

/-- Join fields with the delimiter byte (no trailing delimiter). -/
def joinFields (d : Nat) : List (List Nat) → List Nat
  | [] => []
  | [f] => f
  | f :: fs => f ++ d :: joinFields d fs

/-- Modelled from the spec: format and escape every cell of a row (§4.5,
first part); fails on the first formatting failure. -/
def serializeFields (o : CsvWriterOptions) :
    List Cell → Except WriteError (List (List Nat))
  | [] => .ok []
  | c :: cs =>
    match formatCell o c with
    | .error e => .error e
    | .ok s =>
      match serializeFields o cs with
      | .error e => .error e
      | .ok rest =>
        .ok (escape_field (strBytes s) o.delimiter o.quote
          (distinguishEmpty o c) :: rest)

/-- Modelled from the spec: one data row — delimiter-joined escaped
fields terminated by one line break (§4.5). -/
def serializeRow (o : CsvWriterOptions) (row : List Cell) :
    Except WriteError (List Nat) :=
  match serializeFields o row with
  | .error e => .error e
  | .ok fs => .ok (joinFields o.delimiter fs ++ [10])

/-- Serialize a list of rows, failing on the first row that fails. -/
def serializeRows (o : CsvWriterOptions) :
    List (List Cell) → Except WriteError (List (List Nat))
  | [] => .ok []
  | r :: rs =>
    match serializeRow o r with
    | .error e => .error e
    | .ok b =>
      match serializeRows o rs with
      | .error e => .error e
      | .ok bs => .ok (b :: bs)

/-- Modelled from the spec: one batch buffer — the rows of a window,
fully formatted, concatenated; a row enters the buffer only once fully
formatted (§4.5, §7). -/
def serializeChunk (o : CsvWriterOptions) (c : List (List Cell)) :
    Except WriteError (List Nat) :=
  match serializeRows o c with
  | .error e => .error e
  | .ok bs => .ok bs.flatten

/-- Serialize a list of batches, failing on the first batch that fails. -/
def serializeChunks (o : CsvWriterOptions) :
    List (List (List Cell)) → Except WriteError (List (List Nat))
  | [] => .ok []
  | c :: cs =>
    match serializeChunk o c with
    | .error e => .error e
    | .ok b =>
      match serializeChunks o cs with
      | .error e => .error e
      | .ok bs => .ok (b :: bs)

/-- Fuel-driven splitting into consecutive windows of size `n`; with
`n = 0` (excluded by the spec's `batch_size ≥ 1` invariant) the whole
list is one window.  The fuel keeps the recursion structural. -/
def chunksAux {α : Type} : Nat → Nat → List α → List (List α)
  | 0, _, _ => []
  | fuel + 1, n, xs =>
    if xs.isEmpty then []
    else if n = 0 then [xs]
    else xs.take n :: chunksAux fuel n (xs.drop n)

/-- Consecutive windows of size `n` of a list (spec §4.5). -/
def chunksOf {α : Type} (n : Nat) (xs : List α) : List (List α) :=
  chunksAux (xs.length + 1) n xs

/-- Modelled from the spec: the header row — column names treated as
plain text fields, escaped identically, delimiter-joined, terminated by
one line break (§4.4). -/
def headerBytes (names : List String) (o : CsvWriterOptions) : List Nat :=
  joinFields o.delimiter
      (names.map fun nm =>
        escape_field (strBytes nm) o.delimiter o.quote (o.null == ""))
    ++ [10]

/-- The caller-supplied output sink: bytes written so far, and an
optional failure budget — `some k` makes the `k`-th next flush fail
(modelling a device-full or closed-pipe error), `none` never fails. -/
structure OutStream where
  written : List Nat
  failAfter : Option Nat
deriving Repr, DecidableEq

/-- One flush to the output sink: appends the bytes or fails, consuming
the failure budget. -/
def streamWrite (s : OutStream) (bytes : List Nat) :
    Except WriteError OutStream :=
  match s.failAfter with
  | none => .ok { s with written := s.written ++ bytes }
  | some 0 => .error .outputFailure
  | some (k + 1) => .ok { written := s.written ++ bytes, failAfter := some k }

/-- Modelled from the spec: `write_impl::write_header` — format, escape
and flush the header row. -/
def write_header (s : OutStream) (names : List String)
    (o : CsvWriterOptions) : Except WriteError OutStream :=
  streamWrite s (headerBytes names o)

/-- Modelled from the spec: flush one fully-serialized batch after
another, stopping at the first formatting or output failure (§4.5, §7);
a batch that fails to format is never flushed, and a failed flush writes
nothing. -/
def writeBatches (o : CsvWriterOptions) (s : OutStream) :
    List (List (List Cell)) → OutStream × Option WriteError
  | [] => (s, none)
  | c :: cs =>
    match serializeChunk o c with
    | .error e => (s, some e)
    | .ok bytes =>
      match streamWrite s bytes with
      | .error e => (s, some e)
      | .ok s2 => writeBatches o s2 cs

/-- Modelled from the spec: `write_impl::write` — the table body in
consecutive windows of `batch_size` rows (§4.5). -/
def write (s : OutStream) (df : DataFrame) (o : CsvWriterOptions) :
    OutStream × Option WriteError :=
  writeBatches o s (chunksOf o.batch_size df.rows)

/-- The single entry point `CsvWriter::finish` from `write.rs`: write the
header row if `header` is set (propagating its error), then the body. -/
def CsvWriter.finish (w : CsvWriter OutStream) (df : DataFrame) :
    OutStream × Option WriteError :=
  if w.options.header then
    match write_header w.buffer df.get_column_names w.options with
    | .error e => (w.buffer, some e)
    | .ok s2 => write s2 df w.options
  else
    write w.buffer df w.options

/-- A fresh, never-failing output sink, used by concrete witnesses. -/
def sampleStream : OutStream := ⟨[], none⟩

/-- The default option bundle produced by `CsvWriter::new`, used by
concrete witnesses. -/
def sampleOptions : CsvWriterOptions := (CsvWriter.new sampleStream).options

/-- The two-column example table of spec §8, used by concrete
witnesses. -/
def sampleDf : DataFrame :=
  ⟨[("id", [.int 1, .int 2]), ("name", [.text "a,b", .null])]⟩

/-- The serialized data rows of `sampleDf` under `sampleOptions`:
the bytes of "1,\x22a,b\x22\n" and of "2,\n". -/
def sampleRowBytes : List (List Nat) :=
  [[49, 44, 34, 97, 44, 98, 34, 10], [50, 44, 10]]

/-! ## Theorems -/

/-- C2: `CsvWriter::new` yields exactly the default options: header true,
delimiter the comma byte, quote the double-quote byte, empty null
sentinel, batch size 1024, no date, datetime or float-precision override,
and `time_format` set to the nanosecond fractional-seconds pattern. -/
theorem new_yields_default_options (buf : W) :
    (CsvWriter.new buf).options.header = true
    ∧ (CsvWriter.new buf).options.delimiter = Char.toNat ','
    ∧ (CsvWriter.new buf).options.quote = Char.toNat '"'
    ∧ (CsvWriter.new buf).options.null = ""
    ∧ (CsvWriter.new buf).options.batch_size = 1024
    ∧ (CsvWriter.new buf).options.date_format = none
    ∧ (CsvWriter.new buf).options.datetime_format = none
    ∧ (CsvWriter.new buf).options.float_precision = none
    ∧ (CsvWriter.new buf).options.time_format = some "%T%.9f"
    ∧ (CsvWriter.new buf).buffer = buf :=
  ⟨rfl, rfl, rfl, rfl, rfl, rfl, rfl, rfl, rfl, rfl⟩

/-- C6: passing `none` to `with_date_format`, `with_time_format`,
`with_datetime_format` or `with_float_precision` leaves the writer, and in
particular the previously set option, unchanged; a present value is
stored. -/
theorem with_format_none_is_noop (w : CsvWriter W) (s : String) (p : Nat) :
    w.with_date_format none = w
    ∧ w.with_time_format none = w
    ∧ w.with_datetime_format none = w
    ∧ w.with_float_precision none = w
    ∧ (w.with_date_format (some s)).options.date_format = some s
    ∧ (w.with_time_format (some s)).options.time_format = some s
    ∧ (w.with_datetime_format (some s)).options.datetime_format = some s
    ∧ (w.with_float_precision (some p)).options.float_precision = some p :=
  ⟨rfl, rfl, rfl, rfl, rfl, rfl, rfl, rfl⟩

/-- C9: each configuration method keeps the output handle and rewrites at
most its own option field, every other field of the options bundle being
preserved; `with_options` replaces the whole bundle while keeping the
handle. -/
theorem with_methods_touch_only_own_field (w : CsvWriter W) (b : Bool)
    (d bs q : Nat) (f g k : Option String) (p : Option Nat) (nv : String)
    (o : CsvWriterOptions) :
    w.has_header b = { w with options := { w.options with header := b } }
    ∧ w.with_delimiter d
        = { w with options := { w.options with delimiter := d } }
    ∧ w.with_batch_size bs
        = { w with options := { w.options with batch_size := bs } }
    ∧ w.with_date_format f
        = (if f.isSome then
            { w with options := { w.options with date_format := f } }
          else w)
    ∧ w.with_time_format g
        = (if g.isSome then
            { w with options := { w.options with time_format := g } }
          else w)
    ∧ w.with_datetime_format k
        = (if k.isSome then
            { w with options := { w.options with datetime_format := k } }
          else w)
    ∧ w.with_float_precision p
        = (if p.isSome then
            { w with options := { w.options with float_precision := p } }
          else w)
    ∧ w.with_quoting_char q
        = { w with options := { w.options with quote := q } }
    ∧ w.with_null_value nv
        = { w with options := { w.options with null := nv } }
    ∧ (w.with_options o).options = o
    ∧ (w.with_options o).buffer = w.buffer :=
  ⟨rfl, rfl, rfl, rfl, rfl, rfl, rfl, rfl, rfl, rfl, rfl⟩

/-- C10: no configuration-time validation of the delimiter against the
quote: any byte is stored unconditionally by `with_delimiter` and
`with_quoting_char`, so a configuration with delimiter equal to quote is
accepted. -/
theorem delimiter_quote_unvalidated (w : CsvWriter W) (b : Nat)
    (hb : b < 256) :
    (w.with_delimiter b).options.delimiter = b
    ∧ (w.with_quoting_char b).options.quote = b
    ∧ ((w.with_delimiter b).with_quoting_char b).options.delimiter
        = ((w.with_delimiter b).with_quoting_char b).options.quote :=
  ⟨rfl, rfl, rfl⟩

/-- Witness for C10 at the line-feed byte 10: both setters store it, and
the resulting configuration has delimiter equal to quote. -/
theorem delimiter_quote_unvalidated_witness :
    (10 : Nat) < 256
    ∧ (((CsvWriter.new ()).with_delimiter 10).options.delimiter = 10
      ∧ ((CsvWriter.new ()).with_quoting_char 10).options.quote = 10
      ∧ (((CsvWriter.new ()).with_delimiter 10).with_quoting_char
            10).options.delimiter
          = (((CsvWriter.new ()).with_delimiter 10).with_quoting_char
            10).options.quote) :=
  ⟨by decide, delimiter_quote_unvalidated (CsvWriter.new ()) 10 (by decide)⟩

/-- The boolean quoting test agrees with the corresponding proposition. -/
theorem needs_quote_iff (f : List Nat) (d q : Nat) (e : Bool) :
    needs_quote f d q e = true ↔
      (d ∈ f ∨ q ∈ f ∨ 10 ∈ f ∨ 13 ∈ f ∨ (f = [] ∧ e = true)) := by
  simp only [needs_quote, Bool.or_eq_true, List.any_eq_true, beq_iff_eq,
    Bool.and_eq_true, List.isEmpty_iff]
  constructor
  · rintro (⟨x, hx, ((rfl | rfl) | rfl) | rfl⟩ | ⟨rfl, he⟩)
    · exact Or.inl hx
    · exact Or.inr (Or.inl hx)
    · exact Or.inr (Or.inr (Or.inl hx))
    · exact Or.inr (Or.inr (Or.inr (Or.inl hx)))
    · exact Or.inr (Or.inr (Or.inr (Or.inr ⟨rfl, he⟩)))
  · rintro (h | h | h | h | ⟨rfl, he⟩)
    · exact Or.inl ⟨d, h, Or.inl (Or.inl (Or.inl rfl))⟩
    · exact Or.inl ⟨q, h, Or.inl (Or.inl (Or.inr rfl))⟩
    · exact Or.inl ⟨10, h, Or.inl (Or.inr rfl)⟩
    · exact Or.inl ⟨13, h, Or.inr rfl⟩
    · exact Or.inr ⟨rfl, he⟩

/-- C3: the escaper quotes a field exactly when it contains the delimiter,
the quote byte or a line-break byte, or when it is an empty non-null text
field while the null sentinel is the empty string (the `e` flag); in every
other case the field is written as-is, unquoted. -/
theorem escaper_quotes_exactly_when_required (f : List Nat) (d q : Nat)
    (e : Bool) :
    escape_field f d q e =
      if d ∈ f ∨ q ∈ f ∨ 10 ∈ f ∨ 13 ∈ f ∨ (f = [] ∧ e = true) then
        q :: (escapeQuotes q f ++ [q])
      else f := by
  by_cases h : d ∈ f ∨ q ∈ f ∨ 10 ∈ f ∨ 13 ∈ f ∨ (f = [] ∧ e = true)
  · rw [if_pos h]
    unfold escape_field
    rw [if_pos ((needs_quote_iff f d q e).2 h)]
  · rw [if_neg h]
    unfold escape_field
    rw [if_neg fun hc => h ((needs_quote_iff f d q e).1 hc)]

/-- Each quote byte of the field is emitted twice by the doubling pass. -/
theorem escapeQuotes_count (q : Nat) (f : List Nat) :
    List.count q (escapeQuotes q f) = 2 * List.count q f := by
  induction f with
  | nil => simp [escapeQuotes]
  | cons b t ih =>
    by_cases hb : b = q <;>
      simp [escapeQuotes, hb, List.count_cons, List.count_append, ih] <;>
      omega

/-- C4: a field that the escaper quotes is wrapped in one leading and one
trailing quote byte, and every occurrence of the quote byte inside it
appears doubled (its count is exactly doubled by the escape pass). -/
theorem quoted_field_wrapped_and_doubled (f : List Nat) (d q : Nat)
    (e : Bool) (h : needs_quote f d q e = true) :
    escape_field f d q e = q :: (escapeQuotes q f ++ [q])
    ∧ List.count q (escapeQuotes q f) = 2 * List.count q f := by
  constructor
  · unfold escape_field
    rw [if_pos h]
  · exact escapeQuotes_count q f

/-- Witness for C4 on the field consisting of a quote byte then the byte
65, with comma delimiter and double-quote quote byte. -/
theorem quoted_field_wrapped_and_doubled_witness :
    needs_quote [34, 65] 44 34 false = true
    ∧ (escape_field [34, 65] 44 34 false
          = 34 :: (escapeQuotes 34 [34, 65] ++ [34])
      ∧ List.count 34 (escapeQuotes 34 [34, 65])
          = 2 * List.count 34 [34, 65]) :=
  ⟨by decide, quoted_field_wrapped_and_doubled [34, 65] 44 34 false
    (by decide)⟩

/-- The digit characters emitted for digits below ten are decimal digit
characters. -/
theorem digitChar_isDigit {d : Nat} (h : d < 10) :
    (Nat.digitChar d).isDigit = true := by
  interval_cases d <;> decide

/-- Every character produced by the fuel-driven digit renderer is a
decimal digit. -/
theorem natDigitsAux_isDigit :
    ∀ fuel n, ∀ c ∈ natDigitsAux fuel n, c.isDigit = true := by
  intro fuel
  induction fuel with
  | zero => intro n c hc; simp [natDigitsAux] at hc
  | succ fu ih =>
    intro n c hc
    by_cases h : n < 10
    · simp [natDigitsAux, h] at hc
      subst hc
      exact digitChar_isDigit h
    · simp [natDigitsAux, h] at hc
      rcases hc with hc | hc
      · exact ih _ _ hc
      · subst hc
        exact digitChar_isDigit (Nat.mod_lt _ (by norm_num))

/-- Every character of a rendered natural number is a decimal digit. -/
theorem natDigits_isDigit (n : Nat) :
    ∀ c ∈ natDigits n, c.isDigit = true :=
  natDigitsAux_isDigit _ _

/-- A natural number below `10 ^ k` renders in at most `k` digits. -/
theorem natDigitsAux_length :
    ∀ fuel n k, n < 10 ^ k → 0 < k → (natDigitsAux fuel n).length ≤ k := by
  intro fuel
  induction fuel with
  | zero => intro n k _ hk; simp [natDigitsAux]
  | succ fu ih =>
    intro n k hn hk
    by_cases h : n < 10
    · simp [natDigitsAux, h]
      omega
    · have h10 : 10 ≤ n := le_of_not_lt h
      have hk2 : 2 ≤ k := by
        by_contra hlt
        push_neg at hlt
        have hk1 : k = 1 := by omega
        subst hk1
        simp at hn
        omega
      have hpow : 10 * 10 ^ (k - 1) = 10 ^ k := by
        rw [← pow_succ']
        congr 1
        omega
      have hdiv : n / 10 < 10 ^ (k - 1) :=
        Nat.div_lt_of_lt_mul (by omega)
      have hrec := ih (n / 10) (k - 1) hdiv (by omega)
      simp [natDigitsAux, h, List.length_append]
      omega

/-- A natural number below `10 ^ k` renders in at most `k` digits. -/
theorem natDigits_length_le {n k : Nat} (hn : n < 10 ^ k) (hk : 0 < k) :
    (natDigits n).length ≤ k :=
  natDigitsAux_length _ _ _ hn hk

/-- Zero-padding to a width at least the content's length yields exactly
that width. -/
theorem padLeftZeros_length (w : Nat) (cs : List Char)
    (h : cs.length ≤ w) : (padLeftZeros w cs).length = w := by
  simp [padLeftZeros]
  omega

/-- Zero-padding a digit string yields a digit string. -/
theorem padLeftZeros_isDigit (w : Nat) (cs : List Char)
    (h : ∀ c ∈ cs, c.isDigit = true) :
    ∀ c ∈ padLeftZeros w cs, c.isDigit = true := by
  intro c hc
  rcases List.mem_append.1 hc with hc | hc
  · rw [List.eq_of_mem_replicate hc]
    decide
  · exact h c hc

/-- Scanning for the decimal point skips a dot-free front segment. -/
theorem afterDot_append (xs t : List Char) (h : ∀ c ∈ xs, c ≠ '.') :
    afterDot (xs ++ '.' :: t) = some t := by
  induction xs with
  | nil => simp [afterDot]
  | cons c cs ih =>
    have hc : c ≠ '.' := h c (List.mem_cons_self c cs)
    simp [afterDot, hc]
    exact ih fun x hx => h x (List.mem_cons_of_mem c hx)

/-- A decimal digit character is not a point, a minus sign, or an
exponent marker. -/
theorem isDigit_ne {c : Char} (h : c.isDigit = true) :
    c ≠ '.' ∧ c ≠ '-' ∧ c ≠ 'e' ∧ c ≠ 'E' := by
  refine ⟨?_, ?_, ?_, ?_⟩ <;> rintro rfl <;> simp at h

/-- C8: with `float_precision` set to `p > 0`, every float renders in
fixed notation with exactly `p` digits after the decimal point and no
exponent marker; in particular with precision 2 the value 31/10 renders
as "3.10" and 314159/100000 renders as "3.14". -/
theorem float_precision_fixed_digits (p : Nat) (x : ℚ) (hp : 0 < p) :
    (∃ fl, afterDot (formatFloat (some p) x).data = some fl
        ∧ fl.length = p
        ∧ ∀ c ∈ fl, c.isDigit = true)
    ∧ (∀ c ∈ (formatFloat (some p) x).data, c ≠ 'e' ∧ c ≠ 'E')
    ∧ formatFloat (some 2) (mkRat 31 10) = "3.10"
    ∧ mkRat 31 10 = (31 : ℚ) / 10
    ∧ formatFloat (some 2) (mkRat 314159 100000) = "3.14"
    ∧ mkRat 314159 100000 = (314159 : ℚ) / 100000 := by
  have hp0 : p ≠ 0 := by omega
  have hshape : formatFloatChars p x =
      ((if x.num < 0 then ['-'] else [])
          ++ natDigits
            ((2 * x.num.natAbs * 10 ^ p + x.den) / (2 * x.den) / 10 ^ p))
        ++ '.' :: padLeftZeros p (natDigits
            ((2 * x.num.natAbs * 10 ^ p + x.den) / (2 * x.den) % 10 ^ p)) := by
    simp only [formatFloatChars, if_neg hp0]
  have hfree : ∀ c ∈ (if x.num < 0 then ['-'] else [])
      ++ natDigits
        ((2 * x.num.natAbs * 10 ^ p + x.den) / (2 * x.den) / 10 ^ p),
      c ≠ '.' ∧ c ≠ 'e' ∧ c ≠ 'E' := by
    intro c hc
    rcases List.mem_append.1 hc with hc | hc
    · by_cases hneg : x.num < 0
      · simp [hneg] at hc
        subst hc
        refine ⟨by decide, by decide, by decide⟩
      · simp [hneg] at hc
    · have hd := natDigits_isDigit _ c hc
      exact ⟨(isDigit_ne hd).1, (isDigit_ne hd).2.2.1, (isDigit_ne hd).2.2.2⟩
  have hfrac_lt :
      (2 * x.num.natAbs * 10 ^ p + x.den) / (2 * x.den) % 10 ^ p < 10 ^ p :=
    Nat.mod_lt _ (pow_pos (by norm_num) p)
  refine ⟨?_, ?_, by decide, by rw [Rat.mkRat_eq_div]; norm_num,
    by decide, by rw [Rat.mkRat_eq_div]; norm_num⟩
  · refine ⟨padLeftZeros p (natDigits
        ((2 * x.num.natAbs * 10 ^ p + x.den) / (2 * x.den) % 10 ^ p)),
      ?_, padLeftZeros_length _ _ (natDigits_length_le hfrac_lt hp),
      padLeftZeros_isDigit _ _ (natDigits_isDigit _)⟩
    show afterDot (formatFloatChars p x) = _
    rw [hshape]
    exact afterDot_append _ _ fun c hc => (hfree c hc).1
  · intro c hc
    have hc2 : c ∈ formatFloatChars p x := hc
    rw [hshape] at hc2
    rcases List.mem_append.1 hc2 with hc2 | hc2
    · exact (hfree c hc2).2
    · rcases List.mem_cons.1 hc2 with rfl | hc2
      · exact ⟨by decide, by decide⟩
      · have hd := padLeftZeros_isDigit _ _ (natDigits_isDigit _) c hc2
        exact ⟨(isDigit_ne hd).2.2.1, (isDigit_ne hd).2.2.2⟩

/-- Witness for C8 at precision 2 and the value 31/10. -/
theorem float_precision_fixed_digits_witness :
    (0 : Nat) < 2
    ∧ ((∃ fl, afterDot (formatFloat (some 2) (mkRat 31 10)).data = some fl
          ∧ fl.length = 2
          ∧ ∀ c ∈ fl, c.isDigit = true)
      ∧ (∀ c ∈ (formatFloat (some 2) (mkRat 31 10)).data,
          c ≠ 'e' ∧ c ≠ 'E')
      ∧ formatFloat (some 2) (mkRat 31 10) = "3.10"
      ∧ mkRat 31 10 = (31 : ℚ) / 10
      ∧ formatFloat (some 2) (mkRat 314159 100000) = "3.14"
      ∧ mkRat 314159 100000 = (314159 : ℚ) / 100000) :=
  ⟨by decide, float_precision_fixed_digits 2 (mkRat 31 10) (by decide)⟩

/-- Formatting a cell ignores the batch size. -/
theorem formatCell_set_batch (o : CsvWriterOptions) (b : Nat) (c : Cell) :
    formatCell { o with batch_size := b } c = formatCell o c := by
  cases c <;> rfl

/-- The empty-field distinction flag ignores the batch size. -/
theorem distinguishEmpty_set_batch (o : CsvWriterOptions) (b : Nat)
    (c : Cell) :
    distinguishEmpty { o with batch_size := b } c = distinguishEmpty o c := by
  cases c <;> rfl

/-- Serializing the fields of a row ignores the batch size. -/
theorem serializeFields_set_batch (o : CsvWriterOptions) (b : Nat) :
    ∀ row, serializeFields { o with batch_size := b } row
      = serializeFields o row := by
  intro row
  induction row with
  | nil => rfl
  | cons c cs ih =>
    simp only [serializeFields, formatCell_set_batch,
      distinguishEmpty_set_batch, ih]

/-- Serializing one row ignores the batch size. -/
theorem serializeRow_set_batch (o : CsvWriterOptions) (b : Nat)
    (row : List Cell) :
    serializeRow { o with batch_size := b } row = serializeRow o row := by
  simp only [serializeRow, serializeFields_set_batch]

/-- Serializing the rows ignores the batch size. -/
theorem serializeRows_set_batch (o : CsvWriterOptions) (b : Nat) :
    ∀ rows, serializeRows { o with batch_size := b } rows
      = serializeRows o rows := by
  intro rows
  induction rows with
  | nil => rfl
  | cons r rs ih =>
    simp only [serializeRows, serializeRow_set_batch, ih]

/-- A successful flush appends exactly the given bytes. -/
theorem streamWrite_written (s : OutStream) (b : List Nat) (s2 : OutStream)
    (h : streamWrite s b = .ok s2) : s2.written = s.written ++ b := by
  rcases s with ⟨w, fa⟩
  cases fa with
  | none =>
    simp only [streamWrite] at h
    injection h with h2
    subst h2
    rfl
  | some k =>
    cases k with
    | zero => simp [streamWrite] at h
    | succ k2 =>
      simp only [streamWrite] at h
      injection h with h2
      subst h2
      rfl

/-- Row serialization of a successful list restricts to every take/drop
decomposition. -/
theorem serializeRows_take_drop (o : CsvWriterOptions) :
    ∀ (rows : List (List Cell)) (rbs : List (List Nat)),
      serializeRows o rows = .ok rbs → ∀ n : Nat,
      serializeRows o (rows.take n) = .ok (rbs.take n)
      ∧ serializeRows o (rows.drop n) = .ok (rbs.drop n) := by
  intro rows
  induction rows with
  | nil =>
    intro rbs h n
    simp only [serializeRows] at h
    cases h
    simp [serializeRows]
  | cons r rs ih =>
    intro rbs h n
    cases hr : serializeRow o r with
    | error e => simp [serializeRows, hr] at h
    | ok b =>
      cases hrs : serializeRows o rs with
      | error e => simp [serializeRows, hr, hrs] at h
      | ok bs =>
        simp only [serializeRows, hr, hrs] at h
        injection h with h2
        subst h2
        cases n with
        | zero =>
          constructor
          · simp [serializeRows]
          · simp [serializeRows, hr, hrs]
        | succ m =>
          obtain ⟨h1, h2⟩ := ih bs hrs m
          constructor
          · simp [serializeRows, hr, h1]
          · simpa using h2

/-- Chunking a successfully serialized row list serializes chunk-wise to
the same flattened bytes. -/
theorem serializeChunks_chunksAux (o : CsvWriterOptions) :
    ∀ (fuel n : Nat) (rows : List (List Cell)) (rbs : List (List Nat)),
      rows.length < fuel → 0 < n → serializeRows o rows = .ok rbs →
      ∃ cbs, serializeChunks o (chunksAux fuel n rows) = .ok cbs
        ∧ cbs.flatten = rbs.flatten := by
  intro fuel
  induction fuel with
  | zero =>
    intro n rows rbs hf hn hser
    exact absurd hf (by omega)
  | succ fu ih =>
    intro n rows rbs hf hn hser
    cases rows with
    | nil =>
      simp only [serializeRows] at hser
      cases hser
      exact ⟨[], by simp [chunksAux, serializeChunks], by simp⟩
    | cons r rs =>
      simp only [List.length_cons] at hf
      have hn0 : ¬ (n = 0) := by omega
      obtain ⟨htake, hdrop⟩ :=
        serializeRows_take_drop o (r :: rs) rbs hser n
      have hlen : ((r :: rs).drop n).length < fu := by
        simp only [List.length_drop, List.length_cons]
        omega
      obtain ⟨cbs, hc, hflat⟩ := ih n ((r :: rs).drop n) (rbs.drop n)
        hlen hn hdrop
      refine ⟨(rbs.take n).flatten :: cbs, ?_, ?_⟩
      · simp [chunksAux, hn0, serializeChunks, serializeChunk, htake, hc]
      · rw [List.flatten_cons, hflat, ← List.flatten_append,
          List.take_append_drop]

/-- Over a never-failing sink, fully serializable batches are all flushed
in order. -/
theorem writeBatches_nofail (o : CsvWriterOptions) :
    ∀ (chunks : List (List (List Cell))) (cbs : List (List Nat))
      (init : List Nat), serializeChunks o chunks = .ok cbs →
      writeBatches o ⟨init, none⟩ chunks
        = (⟨init ++ cbs.flatten, none⟩, none) := by
  intro chunks
  induction chunks with
  | nil =>
    intro cbs init h
    simp only [serializeChunks] at h
    cases h
    simp [writeBatches]
  | cons c cs ih =>
    intro cbs init h
    cases hc : serializeChunk o c with
    | error e => simp [serializeChunks, hc] at h
    | ok b =>
      cases hcs : serializeChunks o cs with
      | error e => simp [serializeChunks, hc, hcs] at h
      | ok bs =>
        simp only [serializeChunks, hc, hcs] at h
        injection h with h2
        subst h2
        have hsw : streamWrite ⟨init, none⟩ b = .ok ⟨init ++ b, none⟩ := rfl
        simp [writeBatches, hc, hsw, ih bs (init ++ b) hcs,
          List.append_assoc]

/-- Over a never-failing sink, a fully serializable table body is written
as the concatenation of its serialized rows, whatever the positive batch
size. -/
theorem write_nofail (df : DataFrame) (o : CsvWriterOptions)
    (rbs : List (List Nat)) (init : List Nat) (hn : 0 < o.batch_size)
    (h : serializeRows o df.rows = .ok rbs) :
    write ⟨init, none⟩ df o = (⟨init ++ rbs.flatten, none⟩, none) := by
  obtain ⟨cbs, hc, hflat⟩ := serializeChunks_chunksAux o
    (df.rows.length + 1) o.batch_size df.rows rbs (by omega) hn h
  have hw := writeBatches_nofail o (chunksOf o.batch_size df.rows) cbs
    init hc
  simp only [write]
  rw [hw, hflat]

/-- Over a fresh never-failing sink, `finish` writes the header row (when
enabled) followed by the serialized data rows. -/
theorem finish_nofail (df : DataFrame) (o : CsvWriterOptions)
    (rbs : List (List Nat)) (init : List Nat) (hn : 0 < o.batch_size)
    (h : serializeRows o df.rows = .ok rbs) :
    CsvWriter.finish ⟨⟨init, none⟩, o⟩ df
      = (⟨init ++ (if o.header then headerBytes df.get_column_names o
            else []) ++ rbs.flatten, none⟩, none) := by
  by_cases hh : o.header = true
  · have hwh : write_header ⟨init, none⟩ df.get_column_names o
        = .ok ⟨init ++ headerBytes df.get_column_names o, none⟩ := rfl
    simp only [CsvWriter.finish, hh, if_true, hwh]
    rw [write_nofail df o rbs _ hn h]
  · have hh2 : o.header = false := by simpa using hh
    simp only [CsvWriter.finish, hh2, Bool.false_eq_true, if_false]
    rw [write_nofail df o rbs init hn h]
    simp [hh2]

/-- C1: on a fresh sink, `finish` first writes exactly one header row
(the escaped, delimiter-joined column names, one line break) before any
data row when `header` is true, and no header row at all when `header` is
false, so that the output then starts with the first data row. -/
theorem finish_header_row_first (df : DataFrame) (o : CsvWriterOptions)
    (rbs : List (List Nat)) (hn : 0 < o.batch_size)
    (h : serializeRows o df.rows = .ok rbs) :
    CsvWriter.finish ⟨⟨[], none⟩, o⟩ df
      = (⟨(if o.header then headerBytes df.get_column_names o else [])
            ++ rbs.flatten, none⟩, none) := by
  have hf := finish_nofail df o rbs [] hn h
  simpa using hf

/-- Witness for C1 on the example table of spec §8 with the default
options (header enabled). -/
theorem finish_header_row_first_witness :
    0 < sampleOptions.batch_size
    ∧ serializeRows sampleOptions sampleDf.rows = .ok sampleRowBytes
    ∧ CsvWriter.finish ⟨⟨[], none⟩, sampleOptions⟩ sampleDf
        = (⟨(if sampleOptions.header then
              headerBytes sampleDf.get_column_names sampleOptions
            else []) ++ sampleRowBytes.flatten, none⟩, none) :=
  ⟨by decide, by rfl,
    finish_header_row_first sampleDf sampleOptions sampleRowBytes
      (by decide) (by rfl)⟩

/-- C5: with all non-batch options fixed, writing the same table with any
two positive batch sizes produces byte-identical output. -/
theorem batch_size_immaterial (df : DataFrame) (o : CsvWriterOptions)
    (b1 b2 : Nat) (h1 : 0 < b1) (h2 : 0 < b2) (rbs : List (List Nat))
    (h : serializeRows o df.rows = .ok rbs) :
    CsvWriter.finish ⟨⟨[], none⟩, { o with batch_size := b1 }⟩ df
      = CsvWriter.finish ⟨⟨[], none⟩, { o with batch_size := b2 }⟩ df := by
  have hs1 : serializeRows { o with batch_size := b1 } df.rows = .ok rbs := by
    rw [serializeRows_set_batch]
    exact h
  have hs2 : serializeRows { o with batch_size := b2 } df.rows = .ok rbs := by
    rw [serializeRows_set_batch]
    exact h
  rw [finish_nofail df { o with batch_size := b1 } rbs [] h1 hs1,
    finish_nofail df { o with batch_size := b2 } rbs [] h2 hs2]
  rfl

/-- Witness for C5: batch sizes 1 and 2 on the example table yield the
same output. -/
theorem batch_size_immaterial_witness :
    (0 : Nat) < 1
    ∧ (0 : Nat) < 2
    ∧ serializeRows sampleOptions sampleDf.rows = .ok sampleRowBytes
    ∧ CsvWriter.finish
        ⟨⟨[], none⟩, { sampleOptions with batch_size := 1 }⟩ sampleDf
      = CsvWriter.finish
        ⟨⟨[], none⟩, { sampleOptions with batch_size := 2 }⟩ sampleDf :=
  ⟨by decide, by decide, by rfl,
    batch_size_immaterial sampleDf sampleOptions 1 2 (by decide) (by decide)
      sampleRowBytes (by rfl)⟩

/-- Whatever a run of `writeBatches` does, the sink receives exactly the
serializations of a front segment of the batches, whole batches only, and
a run that reports no error flushed every batch. -/
theorem writeBatches_flushes (o : CsvWriterOptions) :
    ∀ (chunks : List (List (List Cell))) (s : OutStream),
      ∃ fl rest bs,
        chunks = fl ++ rest
        ∧ serializeChunks o fl = .ok bs
        ∧ (writeBatches o s chunks).1.written = s.written ++ bs.flatten
        ∧ ((writeBatches o s chunks).2 = none → rest = []) := by
  intro chunks
  induction chunks with
  | nil =>
    intro s
    exact ⟨[], [], [], rfl, rfl, by simp [writeBatches], fun _ => rfl⟩
  | cons c cs ih =>
    intro s
    cases hc : serializeChunk o c with
    | error e =>
      refine ⟨[], c :: cs, [], rfl, rfl, ?_, ?_⟩
      · simp [writeBatches, hc]
      · intro hnone
        simp [writeBatches, hc] at hnone
    | ok b =>
      cases hw : streamWrite s b with
      | error e =>
        refine ⟨[], c :: cs, [], rfl, rfl, ?_, ?_⟩
        · simp [writeBatches, hc, hw]
        · intro hnone
          simp [writeBatches, hc, hw] at hnone
      | ok s2 =>
        obtain ⟨fl, rest, bs, hsplit, hser, hwrt, hsucc⟩ := ih s2
        refine ⟨c :: fl, rest, b :: bs, by rw [hsplit]; rfl, ?_, ?_, ?_⟩
        · simp [serializeChunks, hc, hser]
        · have hs2 := streamWrite_written s b s2 hw
          simp [writeBatches, hc, hw, hwrt, hs2, List.append_assoc]
        · intro hnone
          apply hsucc
          simpa [writeBatches, hc, hw] using hnone

/-- C7: every failure inside `finish` surfaces in its result, and the
bytes the sink received beyond its prior content are exactly an optional
header row plus the serializations of a front segment of the batches —
whole, fully formatted batches only, never a partial row, with batches
flushed before a later error retained; a run that reports no error
flushed everything. -/
theorem finish_propagates_errors_whole_batches (df : DataFrame)
    (o : CsvWriterOptions) (s : OutStream) :
    ∃ fl rest bs,
      chunksOf o.batch_size df.rows = fl ++ rest
      ∧ serializeChunks o fl = .ok bs
      ∧ ((CsvWriter.finish ⟨s, o⟩ df).1.written = s.written ++ bs.flatten
        ∨ (o.header = true
          ∧ (CsvWriter.finish ⟨s, o⟩ df).1.written
              = s.written ++ headerBytes df.get_column_names o
                  ++ bs.flatten))
      ∧ ((CsvWriter.finish ⟨s, o⟩ df).2 = none → rest = []) := by
  by_cases hh : o.header = true
  · cases hwh : write_header s df.get_column_names o with
    | error e =>
      have hfin : CsvWriter.finish ⟨s, o⟩ df = (s, some e) := by
        simp [CsvWriter.finish, hh, hwh]
      refine ⟨[], chunksOf o.batch_size df.rows, [], rfl, rfl, ?_, ?_⟩
      · left
        rw [hfin]
        simp
      · intro hnone
        rw [hfin] at hnone
        simp at hnone
    | ok s2 =>
      have hfin : CsvWriter.finish ⟨s, o⟩ df = write s2 df o := by
        simp [CsvWriter.finish, hh, hwh]
      have hs2 : s2.written
          = s.written ++ headerBytes df.get_column_names o :=
        streamWrite_written _ _ _ hwh
      obtain ⟨fl, rest, bs, hsplit, hser, hwrt, hsucc⟩ :=
        writeBatches_flushes o (chunksOf o.batch_size df.rows) s2
      refine ⟨fl, rest, bs, hsplit, hser, ?_, ?_⟩
      · right
        refine ⟨hh, ?_⟩
        rw [hfin]
        show (writeBatches o s2 (chunksOf o.batch_size df.rows)).1.written
          = _
        rw [hwrt, hs2]
      · intro hnone
        apply hsucc
        rw [hfin] at hnone
        exact hnone
  · have hh2 : o.header = false := by simpa using hh
    have hfin : CsvWriter.finish ⟨s, o⟩ df = write s df o := by
      simp [CsvWriter.finish, hh2]
    obtain ⟨fl, rest, bs, hsplit, hser, hwrt, hsucc⟩ :=
      writeBatches_flushes o (chunksOf o.batch_size df.rows) s
    refine ⟨fl, rest, bs, hsplit, hser, Or.inl ?_, ?_⟩
    · rw [hfin]
      exact hwrt
    · intro hnone
      apply hsucc
      rw [hfin] at hnone
      exact hnone

/-- Witness for C7 on the example table with a sink whose next flush
fails. -/
theorem finish_propagates_errors_whole_batches_witness :
    ∃ fl rest bs,
      chunksOf sampleOptions.batch_size sampleDf.rows = fl ++ rest
      ∧ serializeChunks sampleOptions fl = .ok bs
      ∧ ((CsvWriter.finish ⟨⟨[], some 0⟩, sampleOptions⟩ sampleDf).1.written
            = (⟨[], some 0⟩ : OutStream).written ++ bs.flatten
        ∨ (sampleOptions.header = true
          ∧ (CsvWriter.finish
                ⟨⟨[], some 0⟩, sampleOptions⟩ sampleDf).1.written
              = (⟨[], some 0⟩ : OutStream).written
                  ++ headerBytes sampleDf.get_column_names sampleOptions
                  ++ bs.flatten))
      ∧ ((CsvWriter.finish ⟨⟨[], some 0⟩, sampleOptions⟩ sampleDf).2 = none
          → rest = []) :=
  finish_propagates_errors_whole_batches sampleDf sampleOptions ⟨[], some 0⟩

end PolarsCsv
